import Mathlib

set_option maxHeartbeats 1000000

/- Shallow embedding of JRaspass/assets (src/main.go): a build-time asset pipeline.
   Bytes are modelled as Lean strings (the assets are UTF-8 text; byte-wise Go
   operations coincide with char-wise ones on such data).  Go maps are modelled as
   association lists with at most one entry per key; external capabilities
   (minify, brotli, png->webp, md5+base64) are abstract function parameters. -/

/-- The single-quote character (Go byte 0x27), used by the marker syntaxes. -/
def squote : Char := Char.ofNat 39

/-- Models strings.HasPrefix from the Go standard library. -/
def hasPrefixL (s pre : String) : Bool := pre.toList.isPrefixOf s.toList

/-- Models strings.HasSuffix from the Go standard library. -/
def hasSuffixL (s suf : String) : Bool := suf.toList.isSuffixOf s.toList

/-- files[i] begins with the images/ subtree marker (src/main.go line 161). -/
def isImg (f : String) : Bool := hasPrefixL f "images/"

/-- files[i] ends in the service-worker filename (src/main.go line 168). -/
def isSW (f : String) : Bool := hasSuffixL f "service-worker.js"

/-- Lexicographic comparison of character lists; on UTF-8 text this coincides with
Go's byte-wise string comparison. -/
def charListLt : List Char → List Char → Bool
  | _, [] => false
  | [], _ :: _ => true
  | a :: as, b :: bs =>
    if a.toNat < b.toNat then true
    else if b.toNat < a.toNat then false
    else charListLt as bs

/-- Go's `<` on strings. -/
def strLt (a b : String) : Bool := charListLt a.toList b.toList

/-- The sort.Slice comparator of run (src/main.go lines 160-176), transliterated:
first tier images/, second tier the service-worker suffix, then Go string order. -/
def fileLess (a b : String) : Bool :=
  if isImg a != isImg b then isImg a
  else if isSW a != isSW b then isSW a
  else strLt a b

/-- The extension to MIME table (src/main.go lines 38-46). -/
def mimes : List (String × String) :=
  [(".css", "text/css"), (".jpg", "image/jpeg"), (".js", "application/javascript"),
   (".png", "image/png"), (".svg", "image/svg+xml"),
   (".webmanifest", "application/manifest+json"), (".woff2", "font/woff2")]

/-- The color Variable Table (src/main.go lines 48-62). -/
def colorVars : List (String × String) :=
  [("blue", "#007bff"), ("green", "#28a745"), ("green-dark", "#155724"),
   ("green-light", "#d4edda"), ("grey", "#ced4da"), ("grey-dark", "#343a40"),
   ("grey-light", "#f8f9fa"), ("red", "#dc3545"), ("red-dark", "#721c24"),
   ("red-light", "#f8d7da"), ("yellow", "#ffc107"), ("yellow-light", "#fff3cd"),
   ("yellow-dark", "#856404")]

/-- cssAssetURLFunc (src/main.go lines 69-72): the submatch is the referenced path;
a Go map lookup on an absent key yields the zero value "". -/
def cssAssetURLFunc (paths : List (String × String)) (file : String) : String :=
  "url(" ++ ((paths.lookup file).getD "") ++ ")"

/-- cssVariableFunc (src/main.go lines 93-95): an unknown name yields nil, i.e. "". -/
def cssVariableFunc (name : String) : String := (colorVars.lookup name).getD ""

/-- jsAssetPathFunc (src/main.go lines 97-100). -/
def jsAssetPathFunc (paths : List (String × String)) (file : String) : String :=
  String.singleton squote ++ ((paths.lookup file).getD "") ++ String.singleton squote

/-- manifestSrcFunc (src/main.go lines 102-105). -/
def manifestSrcFunc (paths : List (String × String)) (file : String) : String :=
  "\"src\":\"" ++ ((paths.lookup file).getD "") ++ "\""

/-- The lazy capture (.*?) of Go regexp followed by the closing delimiter c :: cs:
the shortest body ending at the first occurrence of the delimiter, with '.' not
matching a newline.  Returns the body and the text after the delimiter. -/
def findClose (c : Char) (cs : List Char) : List Char → Option (List Char × List Char)
  | [] => none
  | a :: t =>
    if (c :: cs).isPrefixOf (a :: t) then some ([], (a :: t).drop (cs.length + 1))
    else if a == '\n' then none
    else
      match findClose c cs t with
      | some (b, r) => some (a :: b, r)
      | none => none

/-- One Go regexp ReplaceAllFunc pass for a pattern of shape `pre (.*?) closer`.
Fuelled to keep the recursion structural; every step consumes at least one
character, so fuel = length + 1 never runs out. -/
def replaceScanAux (pre : List Char) (c : Char) (cs : List Char) (f : List Char → List Char) :
    Nat → List Char → List Char
  | 0, s => s
  | _ + 1, [] => []
  | fuel + 1, a :: t =>
    if pre.isPrefixOf (a :: t) then
      match findClose c cs ((a :: t).drop pre.length) with
      | some (b, r) => f b ++ replaceScanAux pre c cs f fuel r
      | none => a :: replaceScanAux pre c cs f fuel t
    else a :: replaceScanAux pre c cs f fuel t

def replaceScan (pre : List Char) (c : Char) (cs : List Char) (f : List Char → List Char)
    (s : String) : String :=
  String.mk (replaceScanAux pre c cs f (s.toList.length + 1) s.toList)

/-- cssAssetURL.ReplaceAllFunc _ cssAssetURLFunc (pattern at src/main.go line 32). -/
def cssAssetURLPass (paths : List (String × String)) (s : String) : String :=
  replaceScan ("asset-url(".toList ++ [squote]) squote [')']
    (fun b => (cssAssetURLFunc paths (String.mk b)).toList) s

/-- cssVariable.ReplaceAllFunc _ cssVariableFunc (pattern at src/main.go line 34). -/
def cssVariablePass (s : String) : String :=
  replaceScan "var(--".toList ')' [] (fun b => (cssVariableFunc (String.mk b)).toList) s

/-- jsAssetPath.ReplaceAllFunc _ jsAssetPathFunc (pattern at src/main.go line 35). -/
def jsAssetPathPass (paths : List (String × String)) (s : String) : String :=
  replaceScan ("assetPath(".toList ++ [squote]) squote [')']
    (fun b => (jsAssetPathFunc paths (String.mk b)).toList) s

/-- manifestSrc.ReplaceAllFunc _ manifestSrcFunc (pattern at src/main.go line 36). -/
def manifestSrcPass (paths : List (String × String)) (s : String) : String :=
  replaceScan "\"src\":\"".toList '"' [] (fun b => (manifestSrcFunc paths (String.mk b)).toList) s

/-- bytes.ReplaceAll with the non-empty pattern p :: ps, fuelled as above. -/
def replaceAllAux (p : Char) (ps repl : List Char) : Nat → List Char → List Char
  | 0, s => s
  | _ + 1, [] => []
  | fuel + 1, a :: t =>
    if (p :: ps).isPrefixOf (a :: t) then
      repl ++ replaceAllAux p ps repl fuel ((a :: t).drop (ps.length + 1))
    else a :: replaceAllAux p ps repl fuel t

def replaceAllL (p : Char) (ps repl s : List Char) : List Char :=
  replaceAllAux p ps repl (s.length + 1) s

/-- cssSVGEmbedFunc (src/main.go lines 74-91).  The disk read is modelled by a lookup
in fs (a missing file is the fatal read error), and the two extracted submatches
(file, override) are taken directly instead of re-running FindStringSubmatch. -/
def cssSVGEmbedFunc (fs : List (String × String)) (file override : String) :
    Except String String :=
  match fs.lookup file with
  | none => Except.error ("read: " ++ file)
  | some svg0 =>
    let svg1 :=
      if override != "" then replaceAllL 'F' "ILL".toList override.toList svg0.toList
      else svg0.toList
    let svg2 := (cssVariablePass (String.mk svg1)).toList
    let svg3 := replaceAllL '"' [] [squote] svg2
    let svg4 := replaceAllL '#' [] "%23".toList svg3
    Except.ok ("url(\"data:image/svg+xml," ++ String.mk svg4 ++ "\")")

/-- The literal head of the svg-embed marker (pattern at src/main.go line 33). -/
def svgPre : List Char := "svg-embed(".toList ++ [squote]

/-- cssSVGEmbed.ReplaceAllFunc _ cssSVGEmbedFunc: the first capture runs to the
closing quote, then either `)` immediately (no override, submatch "") or `,`
followed by the lazy override capture up to `)`. -/
def svgEmbedAux (fs : List (String × String)) : Nat → List Char → Except String (List Char)
  | 0, s => Except.ok s
  | _ + 1, [] => Except.ok []
  | fuel + 1, a :: t =>
    if svgPre.isPrefixOf (a :: t) then
      match findClose squote [] ((a :: t).drop svgPre.length) with
      | some (fileCs, rest1) =>
        match rest1 with
        | ')' :: rest2 =>
          match cssSVGEmbedFunc fs (String.mk fileCs) "" with
          | Except.error e => Except.error e
          | Except.ok rep =>
            match svgEmbedAux fs fuel rest2 with
            | Except.error e => Except.error e
            | Except.ok done => Except.ok (rep.toList ++ done)
        | ',' :: r =>
          match findClose ')' [] r with
          | some (ov, rest2) =>
            match cssSVGEmbedFunc fs (String.mk fileCs) (String.mk ov) with
            | Except.error e => Except.error e
            | Except.ok rep =>
              match svgEmbedAux fs fuel rest2 with
              | Except.error e => Except.error e
              | Except.ok done => Except.ok (rep.toList ++ done)
          | none =>
            match svgEmbedAux fs fuel t with
            | Except.error e => Except.error e
            | Except.ok done => Except.ok (a :: done)
        | _ =>
          match svgEmbedAux fs fuel t with
          | Except.error e => Except.error e
          | Except.ok done => Except.ok (a :: done)
      | none =>
        match svgEmbedAux fs fuel t with
        | Except.error e => Except.error e
        | Except.ok done => Except.ok (a :: done)
    else
      match svgEmbedAux fs fuel t with
      | Except.error e => Except.error e
      | Except.ok done => Except.ok (a :: done)

def svgEmbedPass (fs : List (String × String)) (s : String) : Except String String :=
  match svgEmbedAux fs (s.toList.length + 1) s.toList with
  | Except.error e => Except.error e
  | Except.ok l => Except.ok (String.mk l)

/-- Backward scan for filepath.Ext: acc holds the characters already passed. -/
def extAux (acc : List Char) : List Char → Option (List Char)
  | [] => none
  | a :: t =>
    if a == '/' then none
    else if a == '.' then some ('.' :: acc)
    else extAux (a :: acc) t

/-- filepath.Ext: the suffix from the final dot of the final path element, else "". -/
def extOf (f : String) : String := ((extAux [] f.toList.reverse).map String.mk).getD ""

/-- path.Base for the slash-free-tail paths produced by filepath.Walk. -/
def baseOf (f : String) : String :=
  String.mk ((f.toList.reverse.takeWhile (fun a => a != '/')).reverse)

/-- The Asset struct (src/main.go lines 27-30); absent []byte fields are "". -/
structure Asset where
  br : String
  data : String
  webp : String
  mime : String
  deriving DecidableEq, Repr

/-- The external capabilities as abstract functions: tdewolff minify (keyed by MIME),
brotli compression, the fused png-decode/webp-encode step, and the fingerprint hash
(base64 raw-URL encoding of the md5 digest). -/
structure Caps where
  minify : String → String → Except String String
  brotli : String → Except String String
  pngWebp : String → Except String String
  hash : String → String

/-- The shared fallthrough block of run's switch (src/main.go lines 201-215):
assetPath rewriting, minification, then the per-extension post-minify pass. -/
def tailPasses (C : Caps) (paths fs : List (String × String)) (ext mime d : String) :
    Except String String :=
  match C.minify mime (jsAssetPathPass paths d) with
  | Except.error e => Except.error e
  | Except.ok d2 =>
    if ext = ".css" then svgEmbedPass fs d2
    else if ext = ".webmanifest" then Except.ok (manifestSrcPass paths d2)
    else Except.ok d2

/-- The transformation switch of run (src/main.go lines 196-218): .css runs its two
reference passes and falls through to the shared block; .js and .webmanifest enter
the shared block directly; .svg only resolves colorVars; all else passes through. -/
def transformData (C : Caps) (paths fs : List (String × String)) (ext mime raw : String) :
    Except String String :=
  if ext = ".css" then
    tailPasses C paths fs ext mime (cssVariablePass (cssAssetURLPass paths raw))
  else if ext = ".js" ∨ ext = ".webmanifest" then tailPasses C paths fs ext mime raw
  else if ext = ".svg" then Except.ok (cssVariablePass raw)
  else Except.ok raw

/-- One iteration of run's file loop up to the fingerprint (src/main.go lines 178-240):
.go files are skipped (none), a missing MIME mapping is the fatal Unsupported error,
then read, transform and, outside dev mode, brotli or webp generation. -/
def processFile (C : Caps) (dev : Bool) (paths fs : List (String × String)) (file : String) :
    Except String (Option Asset) :=
  let ext := extOf file
  if ext = ".go" then Except.ok none
  else
    let mime := (mimes.lookup ext).getD ""
    if mime = "" then Except.error ("Unsupported: " ++ file)
    else
      match fs.lookup file with
      | none => Except.error ("read: " ++ file)
      | some raw =>
        match transformData C paths fs ext mime raw with
        | Except.error e => Except.error e
        | Except.ok d =>
          if dev then Except.ok (some ⟨"", d, "", mime⟩)
          else if ext = ".css" ∨ ext = ".js" ∨ ext = ".svg" then
            match C.brotli d with
            | Except.error e => Except.error e
            | Except.ok b => Except.ok (some ⟨b, d, "", mime⟩)
          else if ext = ".png" then
            match C.pngWebp d with
            | Except.error e => Except.error e
            | Except.ok w => Except.ok (some ⟨"", d, w, mime⟩)
          else Except.ok (some ⟨"", d, "", mime⟩)

/-- Go map assignment m[k] = v on association lists: at most one entry per key. -/
def mapInsert (k : String) (v : α) (m : List (String × α)) : List (String × α) :=
  (k, v) :: m.filter (fun e => e.1 != k)

/-- The per-file loop of run (src/main.go lines 178-247): after a processed file the
fingerprint keys the Asset Table and "/assets/" ++ fingerprint enters the Path Table. -/
def runLoop (C : Caps) (dev : Bool) (fs : List (String × String)) :
    List String → List (String × String) → List (String × Asset) →
    Except String (List (String × String) × List (String × Asset))
  | [], paths, assets => Except.ok (paths, assets)
  | f :: rest, paths, assets =>
    match processFile C dev paths fs f with
    | Except.error e => Except.error e
    | Except.ok none => runLoop C dev fs rest paths assets
    | Except.ok (some a) =>
      runLoop C dev fs rest
        (mapInsert f ("/assets/" ++ C.hash a.data) paths)
        (mapInsert (C.hash a.data) a assets)

/-- Discovery (the filepath.Walk filter, src/main.go lines 149-157): every file whose
base name does not begin with the underscore ignore marker. -/
def discover (fs : List (String × String)) : List String :=
  (fs.map Prod.fst).filter (fun f => !(hasPrefixL (baseOf f) "_"))

/-- The non-strict order induced by the sort.Slice comparator. -/
def fileLE (a b : String) : Prop := fileLess b a = false

instance : DecidableRel fileLE := fun a b => inferInstanceAs (Decidable (_ = false))

/-- sort.Slice files (src/main.go line 160); the comparator is total and strict on
distinct paths, so any correct sort yields this unique order. -/
def sortFiles (files : List String) : List String := List.insertionSort fileLE files

def processOrder (fs : List (String × String)) : List String := sortFiles (discover fs)

/-- One build cycle up to the two tables (run, src/main.go lines 141-247). -/
def runTables (C : Caps) (dev : Bool) (fs : List (String × String)) :
    Except String (List (String × String) × List (String × Asset)) :=
  runLoop C dev fs (processOrder fs) [] []

/-- fmt %#v escaping of one character, for the printable data the theorems use. -/
def goEscape (a : Char) : String :=
  if a = '"' then "\\\""
  else if a = '\\' then "\\\\"
  else if a = '\n' then "\\n"
  else if a = '\t' then "\\t"
  else String.singleton a

/-- fmt %#v of a Go string value. -/
def goQuote (s : String) : String := "\"" ++ String.join (s.toList.map goEscape) ++ "\""

/-- One Paths entry as written by run (src/main.go line 259). -/
def pathEntry (e : String × String) : String := goQuote e.1 ++ ":" ++ goQuote e.2 ++ ","

/-- One Assets entry as written by run (src/main.go lines 270-282). -/
def assetEntry (e : String × Asset) : String :=
  goQuote e.1 ++ ":\x7b[]byte(" ++ goQuote e.2.br ++ "),[]byte(" ++ goQuote e.2.data ++
    "),[]byte(" ++ goQuote e.2.webp ++ ")," ++ goQuote e.2.mime ++ "\x7d,"

/-- The output artifact writer of run (src/main.go lines 249-290).  The entries are
emitted by ranging over two Go maps, whose iteration order is unspecified and
randomized, so the two enumeration orders are explicit parameters here. -/
def serializeArtifact (pathsOrd : List (String × String)) (assetsOrd : List (String × Asset)) :
    String :=
  "package assets;var Paths=map[string]string\x7b" ++ String.join (pathsOrd.map pathEntry) ++
    "\x7d;var Assets=map[string]struct\x7bBr,Data,WebP[]byte;Mime string\x7d\x7b" ++
    String.join (assetsOrd.map assetEntry) ++ "\x7d"

/-- A concrete capability instantiation for closed evaluations: identity minify and
compressors and the identity fingerprint. -/
def capsId : Caps :=
  ⟨fun _ d => Except.ok d, fun d => Except.ok d, fun d => Except.ok d, fun d => d⟩

theorem charListLt_nil_right : ∀ l : List Char, charListLt l [] = false := fun l => by
  cases l <;> rfl

theorem charListLt_asymm : ∀ a b : List Char, charListLt a b = true → charListLt b a = false := by
  intro a
  induction a with
  | nil => intro b _; exact charListLt_nil_right b
  | cons x xs ih =>
    intro b h
    cases b with
    | nil => rw [charListLt_nil_right] at h; exact absurd h (by simp)
    | cons y ys =>
      unfold charListLt at h ⊢
      by_cases hxy : x.toNat < y.toNat
      · have hyx : ¬ y.toNat < x.toNat := by omega
        simp [hxy, hyx]
      · by_cases hyx : y.toNat < x.toNat
        · simp [hxy, hyx] at h
        · simp [hxy, hyx] at h ⊢
          exact ih ys h

theorem charListLt_neg_trans : ∀ a b c : List Char, charListLt b a = false →
    charListLt c b = false → charListLt c a = false := by
  intro a
  induction a with
  | nil => intro b c _ _; exact charListLt_nil_right c
  | cons x xs ih =>
    intro b c h1 h2
    cases b with
    | nil => simp [charListLt] at h1
    | cons z zs =>
      cases c with
      | nil => simp [charListLt] at h2
      | cons y ys =>
        unfold charListLt at h1 h2 ⊢
        by_cases hzx : z.toNat < x.toNat
        · simp [hzx] at h1
        · by_cases hyz : y.toNat < z.toNat
          · simp [hyz] at h2
          · have hyx : ¬ y.toNat < x.toNat := by
              by_cases hxz : x.toNat < z.toNat
              · by_cases hzy : z.toNat < y.toNat <;> omega
              · omega
            simp [hzx, hyz, hyx] at h1 h2 ⊢
            by_cases hxy : x.toNat < y.toNat
            · simp [hxy]
            · have hxz : ¬ x.toNat < z.toNat := by omega
              have hzy : ¬ z.toNat < y.toNat := by omega
              intro _
              exact ih zs ys (h1 (by omega)) (h2 (by omega))

theorem fileLess_asymm (a b : String) (h : fileLess a b = true) : fileLess b a = false := by
  unfold fileLess strLt at *
  cases hia : isImg a <;> cases hib : isImg b <;>
    cases hsa : isSW a <;> cases hsb : isSW b <;>
      simp [hia, hib, hsa, hsb] at h ⊢ <;>
        exact charListLt_asymm _ _ h

theorem fileLE_trans_aux (a b c : String)
    (h1 : fileLess b a = false) (h2 : fileLess c b = false) : fileLess c a = false := by
  unfold fileLess strLt at *
  cases hia : isImg a <;> cases hib : isImg b <;> cases hic : isImg c <;>
    cases hsa : isSW a <;> cases hsb : isSW b <;> cases hsc : isSW c <;>
      simp [hia, hib, hsa, hsb, hic, hsc] at h1 h2 ⊢ <;>
        exact charListLt_neg_trans _ _ _ h1 h2

instance : IsTotal String fileLE :=
  ⟨fun a b => by
    unfold fileLE
    cases h : fileLess b a
    · exact Or.inl rfl
    · exact Or.inr (fileLess_asymm b a h)⟩

instance : IsTrans String fileLE :=
  ⟨fun a b c h1 h2 => fileLE_trans_aux a b c h1 h2⟩

theorem fileLE_images (a b : String) (h : fileLE a b) (hb : isImg b = true) : isImg a = true := by
  cases hia : isImg a
  · unfold fileLE fileLess at h
    simp [hia, hb] at h
  · rfl

instance {ε α : Type} [DecidableEq ε] [DecidableEq α] : DecidableEq (Except ε α) := fun x y =>
  match x, y with
  | Except.ok a, Except.ok b =>
    if h : a = b then Decidable.isTrue (by rw [h]) else Decidable.isFalse (by simp [h])
  | Except.error a, Except.error b =>
    if h : a = b then Decidable.isTrue (by rw [h]) else Decidable.isFalse (by simp [h])
  | Except.ok _, Except.error _ => Decidable.isFalse (by simp)
  | Except.error _, Except.ok _ => Decidable.isFalse (by simp)

/-- Claim C5: in the computed processing order every file under the images subtree
comes before every file not under it (first comparator tier), and on the fixture
tree of images/a.png plus a stylesheet referencing it, one build cycle resolves the
image first, so the stylesheet's reference is rewritten to the image's public path
and both files appear in the emitted Path Table with no error. -/
theorem c5_images_first :
    (∀ files : List String,
      (sortFiles files).Pairwise (fun a b => isImg b = true → isImg a = true)) ∧
    runTables capsId true
        [("images/a.png", "PNG"),
         ("styles/b.css", "h1\x7bbackground:asset-url('images/a.png')\x7d")] =
      Except.ok
        ([("styles/b.css", "/assets/h1\x7bbackground:url(/assets/PNG)\x7d"),
          ("images/a.png", "/assets/PNG")],
         [("h1\x7bbackground:url(/assets/PNG)\x7d",
           ⟨"", "h1\x7bbackground:url(/assets/PNG)\x7d", "", "text/css"⟩),
          ("PNG", ⟨"", "PNG", "", "image/png"⟩)]) := by
  constructor
  · intro files
    exact List.Pairwise.imp (fun h hb => fileLE_images _ _ h hb)
      (List.sorted_insertionSort fileLE files)
  · decide

/-- Claim C2 is false of the code: the comparator returns iServiceWorker when the
service-worker flags differ, so service-worker.js sorts FIRST among the non-image
files, before app.css and zz.js, not strictly after them. -/
theorem c2_service_worker_sorts_first :
    sortFiles ["app.css", "service-worker.js", "zz.js", "images/i.png"] =
      ["images/i.png", "service-worker.js", "app.css", "zz.js"] := by decide

/-- Claim C3 is false of the code: a stylesheet referencing a path absent from the
tree builds successfully (no unresolved-reference abort) and the emitted asset
contains the silently substituted broken value url(). -/
theorem c3_counterexample :
    runTables capsId true [("styles/app.css", "a\x7bb:asset-url('missing.png')\x7d")] =
      Except.ok ([("styles/app.css", "/assets/a\x7bb:url()\x7d")],
        [("a\x7bb:url()\x7d", ⟨"", "a\x7bb:url()\x7d", "", "text/css"⟩)]) := by decide

/-- Claim C3 amended: an asset-path reference whose path is absent from the Path
Table is substituted with the map's zero value, emitting url() in stylesheets and
'' in scripts; the resolvers are total and no unresolved-reference error exists. -/
theorem c3_empty_substitution (paths : List (String × String)) (file : String)
    (h : paths.lookup file = none) :
    cssAssetURLFunc paths file = "url()" ∧ jsAssetPathFunc paths file = "''" := by
  unfold cssAssetURLFunc jsAssetPathFunc
  rw [h]
  exact ⟨by decide, by decide⟩

theorem c3_empty_substitution_witness :
    cssAssetURLFunc [] "missing.png" = "url()" ∧ jsAssetPathFunc [] "missing.png" = "''" :=
  c3_empty_substitution [] "missing.png" rfl

/-- Claim C9: a color-variable reference whose symbolic name is absent from the
Variable Table is substituted with the zero value "", and the resolver is total, so
the build does not fail. -/
theorem c9_unknown_variable_empty (name : String) (h : colorVars.lookup name = none) :
    cssVariableFunc name = "" := by
  unfold cssVariableFunc
  rw [h]
  rfl

theorem c9_unknown_variable_empty_witness :
    colorVars.lookup "purple" = none ∧ cssVariableFunc "purple" = "" :=
  ⟨by decide, c9_unknown_variable_empty "purple" (by decide)⟩

theorem processFile_unsupported (C : Caps) (dev : Bool) (paths fs : List (String × String))
    (f : String) (h1 : extOf f ≠ ".go") (h2 : mimes.lookup (extOf f) = none) :
    processFile C dev paths fs f = Except.error ("Unsupported: " ++ f) := by
  unfold processFile
  simp [h1, h2]

theorem runLoop_not_ok (C : Caps) (dev : Bool) (fs : List (String × String)) (f : String)
    (h1 : extOf f ≠ ".go") (h2 : mimes.lookup (extOf f) = none) :
    ∀ (l : List String), f ∈ l → ∀ paths assets st,
      runLoop C dev fs l paths assets ≠ Except.ok st := by
  intro l
  induction l with
  | nil => intro hf; cases hf
  | cons g t ih =>
    intro hf paths assets st h
    unfold runLoop at h
    rcases List.mem_cons.mp hf with rfl | hft
    · rw [processFile_unsupported C dev paths fs f h1 h2] at h
      cases h
    · cases hp : processFile C dev paths fs g with
      | error e => rw [hp] at h; cases h
      | ok o =>
        cases o with
        | none => rw [hp] at h; exact ih hft _ _ _ h
        | some a => rw [hp] at h; exact ih hft _ _ _ h

/-- Claim C4 amended: a discovered file whose extension is not .go and has no entry
in the MIME table makes processing fail with the fatal error naming that file, and
the whole build cycle aborts; files with extension .go, however, are silently
skipped (see the counterexample). -/
theorem c4_unsupported_fatal (C : Caps) (dev : Bool) (fs : List (String × String)) (f : String)
    (hf : f ∈ discover fs) (h1 : extOf f ≠ ".go") (h2 : mimes.lookup (extOf f) = none) :
    (∀ paths, processFile C dev paths fs f = Except.error ("Unsupported: " ++ f)) ∧
    ∀ st, runTables C dev fs ≠ Except.ok st := by
  refine ⟨fun paths => processFile_unsupported C dev paths fs f h1 h2, fun st => ?_⟩
  have hmem : f ∈ processOrder fs :=
    (List.perm_insertionSort fileLE (discover fs)).symm.subset hf
  exact runLoop_not_ok C dev fs f h1 h2 _ hmem [] [] st

theorem c4_unsupported_fatal_witness :
    processFile capsId true [] [("x.txt", "hi")] "x.txt" = Except.error "Unsupported: x.txt" ∧
    runTables capsId true [("x.txt", "hi")] ≠ Except.ok ([], []) :=
  ⟨(c4_unsupported_fatal capsId true [("x.txt", "hi")] "x.txt" (by decide) (by decide)
      (by decide)).1 [],
   (c4_unsupported_fatal capsId true [("x.txt", "hi")] "x.txt" (by decide) (by decide)
      (by decide)).2 ([], [])⟩

/-- Claim C4 is false of the code: assets.go is a discovered file (its base name
carries no underscore ignore marker) whose extension .go has no entry in the MIME
table, yet the build succeeds and silently skips it, emitting empty tables. -/
theorem c4_counterexample :
    discover [("assets.go", "package assets")] = ["assets.go"] ∧
    mimes.lookup (extOf "assets.go") = none ∧
    runTables capsId true [("assets.go", "package assets")] = Except.ok ([], []) :=
  ⟨by decide, by decide, by decide⟩

def cssPipelineSpec (C : Caps) (paths fs : List (String × String)) (raw : String) :
    Except String String :=
  (C.minify "text/css"
      (jsAssetPathPass paths (cssVariablePass (cssAssetURLPass paths raw)))).bind
    (svgEmbedPass fs)

/-- Claim C6: for a stylesheet the per-asset pass order is: asset-path references
(the stylesheet's asset-url marker, then the shared script assetPath marker) and
color-variable references resolved, then minification, then the embedded-vector-
graphic pass strictly after minification; the equality holds for every minify
capability, so the ordering is structural. -/
theorem c6_css_pass_order (C : Caps) (paths fs : List (String × String)) (raw : String) :
    transformData C paths fs ".css" "text/css" raw = cssPipelineSpec C paths fs raw := by
  unfold transformData tailPasses cssPipelineSpec
  cases C.minify "text/css"
      (jsAssetPathPass paths (cssVariablePass (cssAssetURLPass paths raw))) <;> rfl

theorem isPrefixOf_self (l : List Char) : l.isPrefixOf l = true := by
  induction l <;> simp_all [List.isPrefixOf]

theorem findClose_append (c : Char) (cs body : List Char)
    (hb : ∀ ch ∈ body, ch ≠ c ∧ ch ≠ '\n') :
    findClose c cs (body ++ c :: cs) = some (body, []) := by
  induction body with
  | nil =>
    unfold findClose
    simp [isPrefixOf_self]
  | cons b t ih =>
    have hbc : (c == b) = false := by
      have := (hb b (List.mem_cons_self b t)).1
      simp [beq_eq_false_iff_ne]
      exact fun h => this h.symm
    have hbn : (b == '\n') = false := by
      have := (hb b (List.mem_cons_self b t)).2
      simp [beq_eq_false_iff_ne, this]
    unfold findClose
    simp only [List.cons_append, List.isPrefixOf, hbc, Bool.false_and, if_neg,
      Bool.false_eq_true, hbn]
    rw [ih (fun ch hch => hb ch (List.mem_cons_of_mem b hch))]
    simp

theorem replaceScanAux_nil (pre : List Char) (c : Char) (cs : List Char)
    (f : List Char → List Char) (m : Nat) : replaceScanAux pre c cs f m [] = [] := by
  cases m <;> rfl

theorem isPrefixOf_append_right (l t : List Char) : l.isPrefixOf (l ++ t) = true := by
  induction l <;> simp_all [List.isPrefixOf]

theorem replaceScanAux_single (q : Char) (qs : List Char) (c : Char) (cs : List Char)
    (f : List Char → List Char) (body : List Char) (m : Nat)
    (hb : ∀ ch ∈ body, ch ≠ c ∧ ch ≠ '\n') :
    replaceScanAux (q :: qs) c cs f (m + 1) (q :: (qs ++ (body ++ c :: cs))) = f body := by
  unfold replaceScanAux
  simp only [List.isPrefixOf, beq_self_eq_true, Bool.true_and, List.length_cons,
    List.drop_succ_cons, List.drop_left, isPrefixOf_append_right, if_pos]
  rw [findClose_append c cs body hb]
  simp [replaceScanAux_nil]

theorem jsAssetPathPass_marker (paths : List (String × String)) (p : String)
    (hp : ∀ ch ∈ p.toList, ch ≠ squote ∧ ch ≠ '\n') :
    jsAssetPathPass paths ("assetPath('" ++ p ++ "')") = jsAssetPathFunc paths p := by
  unfold jsAssetPathPass replaceScan
  have hpre : "assetPath(".toList ++ [squote] = 'a' :: ("ssetPath(".toList ++ [squote]) := by
    decide
  have hs : ("assetPath('" ++ p ++ "')").toList
      = 'a' :: (("ssetPath(".toList ++ [squote]) ++ (p.toList ++ squote :: [')'])) := by
    show "assetPath('".toList ++ p.toList ++ "')".toList = _
    have h1 : "assetPath('".toList = 'a' :: ("ssetPath(".toList ++ [squote]) := by decide
    have h2 : "')".toList = squote :: [')'] := by decide
    rw [h1, h2]
    simp
  rw [hpre, hs]
  rw [show ('a' :: (("ssetPath(".toList ++ [squote]) ++ (p.toList ++ squote :: [')']))).length
        = ('a' :: (("ssetPath(".toList ++ [squote]) ++ (p.toList ++ squote :: [')']))).length - 1 + 1
      from by simp]
  rw [replaceScanAux_single 'a' ("ssetPath(".toList ++ [squote]) squote [')']
    _ p.toList _ hp]
  rfl

/-- Claim C10: the stylesheet pipeline also runs the script/manifest assetPath pass
(Go's fallthrough) before minification, and that pass rewrites assetPath markers to
the Path Table value wrapped in single quotes. -/
theorem c10_css_shares_assetpath_pass (C : Caps) (paths fs : List (String × String))
    (raw p v : String) (hv : paths.lookup p = some v)
    (hp : ∀ ch ∈ p.toList, ch ≠ squote ∧ ch ≠ '\n') :
    transformData C paths fs ".css" "text/css" raw =
      (C.minify "text/css"
          (jsAssetPathPass paths (cssVariablePass (cssAssetURLPass paths raw)))).bind
        (svgEmbedPass fs) ∧
    jsAssetPathPass paths ("assetPath('" ++ p ++ "')")
      = String.singleton squote ++ v ++ String.singleton squote := by
  constructor
  · unfold transformData tailPasses
    cases C.minify "text/css"
        (jsAssetPathPass paths (cssVariablePass (cssAssetURLPass paths raw))) <;> rfl
  · rw [jsAssetPathPass_marker paths p hp]
    unfold jsAssetPathFunc
    rw [hv]
    rfl

theorem c10_css_shares_assetpath_pass_witness :
    transformData capsId [("a.png", "/assets/X")] [] ".css" "text/css" "" =
      (capsId.minify "text/css" (jsAssetPathPass [("a.png", "/assets/X")]
          (cssVariablePass (cssAssetURLPass [("a.png", "/assets/X")] "")))).bind
        (svgEmbedPass []) ∧
    jsAssetPathPass [("a.png", "/assets/X")] ("assetPath('" ++ "a.png" ++ "')")
      = String.singleton squote ++ "/assets/X" ++ String.singleton squote :=
  c10_css_shares_assetpath_pass capsId [("a.png", "/assets/X")] [] "" "a.png" "/assets/X"
    (by decide) (by decide)

theorem replaceAllAux_single_flat (c : Char) (r : List Char) :
    ∀ (m : Nat) (s : List Char), s.length < m →
      replaceAllAux c [] r m s = s.flatMap (fun ch => if ch = c then r else [ch]) := by
  intro m
  induction m with
  | zero => intro s h; exact absurd h (Nat.not_lt_zero _)
  | succ m ih =>
    intro s h
    cases s with
    | nil => simp [replaceAllAux]
    | cons a t =>
      have ht : t.length < m := by simpa using Nat.lt_of_succ_lt_succ h
      unfold replaceAllAux
      by_cases hac : a = c
      · subst hac
        simp [List.isPrefixOf, ih t ht]
      · have hca : (c == a) = false := by
          simp only [beq_eq_false_iff_ne, ne_eq]
          exact fun hh => hac hh.symm
        simp [List.isPrefixOf, hca, hac, ih t ht]

theorem replaceAllL_flat (c : Char) (r s : List Char) :
    replaceAllL c [] r s = s.flatMap (fun ch => if ch = c then r else [ch]) :=
  replaceAllAux_single_flat c r (s.length + 1) s (Nat.lt_succ_self _)

theorem flatMap_singleton_fun (g : Char → Char) (l : List Char) :
    (l.flatMap fun ch => [g ch]) = l.map g := by
  induction l <;> simp_all

/-- The embedded-vector-graphic resolution as the spec words it: read the companion
file, substitute FILL with the override when one is supplied, resolve nested color
variables, replace every double quote by a single quote, percent-encode every '#'
as %23, and produce the data-URI literal. -/
def svgEmbedSpec (fs : List (String × String)) (file override : String) :
    Except String String :=
  match fs.lookup file with
  | none => Except.error ("read: " ++ file)
  | some svg =>
    let withFill :=
      if override ≠ "" then replaceAllL 'F' "ILL".toList override.toList svg.toList
      else svg.toList
    let withVars := (cssVariablePass (String.mk withFill)).toList
    let quotesSwapped := withVars.map (fun ch => if ch = '"' then squote else ch)
    let hashEncoded := quotesSwapped.flatMap (fun ch => if ch = '#' then "%23".toList else [ch])
    Except.ok ("url(\"data:image/svg+xml," ++ String.mk hashEncoded ++ "\")")

/-- Claim C8: the svg-embed resolver reads the named file's bytes, substitutes FILL
with the override color exactly when one is supplied, resolves nested color
variables, swaps every double quote for a single quote, percent-encodes every '#'
as %23 and emits the data-URI literal: the source function equals the spec-worded
pipeline svgEmbedSpec on all inputs. -/
theorem c8_svg_embed_refines (fs : List (String × String)) (file override : String) :
    cssSVGEmbedFunc fs file override = svgEmbedSpec fs file override := by
  unfold cssSVGEmbedFunc svgEmbedSpec
  cases fs.lookup file with
  | none => rfl
  | some svg =>
    have hq : (fun ch => if ch = '"' then [squote] else [ch])
        = fun ch => [if ch = '"' then squote else ch] := by
      funext ch
      by_cases h : ch = '"' <;> simp [h]
    simp only [replaceAllL_flat, hq, flatMap_singleton_fun, bne_iff_ne, ne_eq, decide_not]

theorem mapInsert_lookup_self (k : String) (v : α) (m : List (String × α)) :
    (mapInsert k v m).lookup k = some v := by
  simp [mapInsert, List.lookup]

theorem lookup_filter_ne (k k' : String) (m : List (String × α)) (h : k' ≠ k) :
    (m.filter (fun e => e.1 != k)).lookup k' = m.lookup k' := by
  induction m with
  | nil => rfl
  | cons e t ih =>
    by_cases hek : e.1 = k
    · have hb : (e.1 != k) = false := by simp [hek]
      have hk : (k' == e.1) = false := by simp [hek, h]
      simp [List.filter_cons, hb, List.lookup, hk, ih]
    · have hb : (e.1 != k) = true := by simp [hek]
      by_cases hke : k' = e.1
      · simp [List.filter_cons, hb, List.lookup, hke]
      · have hk : (k' == e.1) = false := by simp [hke]
        simp [List.filter_cons, hb, List.lookup, hk, ih]

theorem mapInsert_lookup_ne (k k' : String) (v : α) (m : List (String × α)) (h : k' ≠ k) :
    (mapInsert k v m).lookup k' = m.lookup k' := by
  have hk : (k' == k) = false := by simp [h]
  simp [mapInsert, List.lookup, hk, lookup_filter_ne k k' m h]

theorem mapInsert_keys_nodup (k : String) (v : α) (m : List (String × α))
    (h : (m.map Prod.fst).Nodup) : ((mapInsert k v m).map Prod.fst).Nodup := by
  unfold mapInsert
  simp only [List.map_cons, List.nodup_cons]
  constructor
  · intro hmem
    obtain ⟨e, he, hek⟩ := List.mem_map.mp hmem
    have := (List.mem_filter.mp he).2
    simp [hek] at this
  · exact h.sublist ((List.filter_sublist m).map Prod.fst)

theorem runLoop_invariant (C : Caps) (dev : Bool) (fs : List (String × String)) :
    ∀ (l : List String) (paths : List (String × String)) (assets : List (String × Asset))
      (P : List (String × String)) (A : List (String × Asset)),
      runLoop C dev fs l paths assets = Except.ok (P, A) →
      (∀ e ∈ assets, e.1 = C.hash e.2.data) →
      (∀ e ∈ paths, ∃ a, assets.lookup (C.hash a.data) = some a ∧
        e.2 = "/assets/" ++ C.hash a.data) →
      (assets.map Prod.fst).Nodup →
      ((∀ e ∈ A, e.1 = C.hash e.2.data) ∧
       (∀ e ∈ P, ∃ a, A.lookup (C.hash a.data) = some a ∧
         e.2 = "/assets/" ++ C.hash a.data) ∧
       (A.map Prod.fst).Nodup) := by
  intro l
  induction l with
  | nil =>
    intro paths assets P A h h1 h2 h3
    unfold runLoop at h
    cases h
    exact ⟨h1, h2, h3⟩
  | cons g t ih =>
    intro paths assets P A h h1 h2 h3
    unfold runLoop at h
    cases hp : processFile C dev paths fs g with
    | error e => rw [hp] at h; cases h
    | ok o =>
      rw [hp] at h
      cases o with
      | none => exact ih _ _ _ _ h h1 h2 h3
      | some a =>
        refine ih _ _ _ _ h ?_ ?_ ?_
        · intro e he
          rcases List.mem_cons.mp he with rfl | hef
          · rfl
          · exact h1 e (List.mem_of_mem_filter hef)
        · intro e he
          rcases List.mem_cons.mp he with rfl | hef
          · exact ⟨a, mapInsert_lookup_self _ _ _, rfl⟩
          · obtain ⟨a0, ha0, he2⟩ := h2 e (List.mem_of_mem_filter hef)
            by_cases hfp : C.hash a0.data = C.hash a.data
            · exact ⟨a, mapInsert_lookup_self _ _ _, by rw [he2, hfp]⟩
            · exact ⟨a0, by rw [mapInsert_lookup_ne _ _ _ _ hfp]; exact ha0, he2⟩
        · exact mapInsert_keys_nodup _ _ _ h3

/-- Claim C7: every Asset Table key (fingerprint) equals the hash of that entry's
transformed data (never raw, compressed or webp bytes), every Path Table value is
the fixed prefix "/assets/" concatenated with a fingerprint resolvable in the Asset
Table, and Asset Table keys are distinct, so identical transformed bytes occupy one
entry. -/
theorem c7_fingerprint_over_transformed (C : Caps) (dev : Bool) (fs : List (String × String))
    (P : List (String × String)) (A : List (String × Asset))
    (h : runTables C dev fs = Except.ok (P, A)) :
    (∀ e ∈ A, e.1 = C.hash e.2.data) ∧
    (∀ e ∈ P, ∃ a, A.lookup (C.hash a.data) = some a ∧
      e.2 = "/assets/" ++ C.hash a.data) ∧
    (A.map Prod.fst).Nodup :=
  runLoop_invariant C dev fs (processOrder fs) [] [] P A h
    (by intro e he; cases he) (by intro e he; cases he) List.nodup_nil

theorem c7_fingerprint_over_transformed_witness :
    "A" = capsId.hash (Asset.mk "" "A" "" "font/woff2").data ∧
    (([("A", Asset.mk "" "A" "" "font/woff2")]).map Prod.fst).Nodup := by
  obtain ⟨h1, _, h3⟩ := c7_fingerprint_over_transformed capsId true [("a.woff2", "A")]
    [("a.woff2", "/assets/A")] [("A", Asset.mk "" "A" "" "font/woff2")] (by decide)
  exact ⟨h1 ("A", Asset.mk "" "A" "" "font/woff2") (by simp), h3⟩

/-- Claim C1 is false of the code: the artifact is emitted by ranging over Go maps,
whose iteration order is unspecified and randomized; here two legitimate iteration
orders (permutations) of the same computed Paths table of one concrete build
serialize to different bytes. -/
theorem c1_counterexample :
    runTables capsId true [("a.woff2", "A"), ("b.woff2", "B")] =
      Except.ok
        ([("b.woff2", "/assets/B"), ("a.woff2", "/assets/A")],
         [("B", ⟨"", "B", "", "font/woff2"⟩), ("A", ⟨"", "A", "", "font/woff2"⟩)]) ∧
    [(("b.woff2" : String), ("/assets/B" : String)), ("a.woff2", "/assets/A")].Perm
      [("a.woff2", "/assets/A"), ("b.woff2", "/assets/B")] ∧
    serializeArtifact [("b.woff2", "/assets/B"), ("a.woff2", "/assets/A")]
        [("B", ⟨"", "B", "", "font/woff2"⟩), ("A", ⟨"", "A", "", "font/woff2"⟩)] ≠
      serializeArtifact [("a.woff2", "/assets/A"), ("b.woff2", "/assets/B")]
        [("B", ⟨"", "B", "", "font/woff2"⟩), ("A", ⟨"", "A", "", "font/woff2"⟩)] :=
  ⟨by decide, by decide, by decide⟩

/-- Claim C1 amended: the computed Paths and Assets tables are deterministic in the
tree and mode flag, and the serialized artifact is deterministic only up to Go's
map iteration order: any two iteration orders of one build's tables serialize
permutations of the same entry strings, byte-identical exactly when the orders
coincide. -/
theorem c1_deterministic_up_to_order (C : Caps) (dev : Bool) (fs : List (String × String))
    (P po1 po2 : List (String × String)) (A ao1 ao2 : List (String × Asset))
    (h : runTables C dev fs = Except.ok (P, A))
    (h1 : po1.Perm P) (h2 : po2.Perm P) (h3 : ao1.Perm A) (h4 : ao2.Perm A) :
    (po1.map pathEntry).Perm (po2.map pathEntry) ∧
    (ao1.map assetEntry).Perm (ao2.map assetEntry) :=
  ⟨(h1.trans h2.symm).map pathEntry, (h3.trans h4.symm).map assetEntry⟩

theorem c1_deterministic_up_to_order_witness :
    (([(("b.woff2" : String), ("/assets/B" : String)), ("a.woff2", "/assets/A")].map
        pathEntry).Perm
      ([(("a.woff2" : String), ("/assets/A" : String)), ("b.woff2", "/assets/B")].map
        pathEntry)) ∧
    (([(("B" : String), Asset.mk "" "B" "" "font/woff2"), ("A", Asset.mk "" "A" "" "font/woff2")].map
        assetEntry).Perm
      ([(("B" : String), Asset.mk "" "B" "" "font/woff2"), ("A", Asset.mk "" "A" "" "font/woff2")].map
        assetEntry)) :=
  c1_deterministic_up_to_order capsId true [("a.woff2", "A"), ("b.woff2", "B")]
    [("b.woff2", "/assets/B"), ("a.woff2", "/assets/A")]
    [("b.woff2", "/assets/B"), ("a.woff2", "/assets/A")]
    [("a.woff2", "/assets/A"), ("b.woff2", "/assets/B")]
    [("B", Asset.mk "" "B" "" "font/woff2"), ("A", Asset.mk "" "A" "" "font/woff2")]
    [("B", Asset.mk "" "B" "" "font/woff2"), ("A", Asset.mk "" "A" "" "font/woff2")]
    [("B", Asset.mk "" "B" "" "font/woff2"), ("A", Asset.mk "" "A" "" "font/woff2")]
    (by decide) (by decide) (by decide) (by decide) (by decide)
